/-
Verification development for the `background` package: a shallow embedding
of the Background tree (group / dependency / annotation / value / error /
shutdown-leaf nodes), its Err / Value / cause queries, the shutdown
protocol, the merge construction, and the idempotent tail transitions,
together with theorems settling the specified properties.

Correspondence to the Go sources:
  * `GErr`, `errString`, `errorsIs`, `annotate`  — the error values built by
    `errors.New`, `fmt.Errorf("%s: %w", ...)` and tested by `errors.Is`.
  * `BG`, `ErrB`, `ValueB`, `causeB`             — group.go, dependency.go,
    annotate.go, value.go, shutdown.go, and the error/readiness leaves.
  * `shutdownModel`                              — shutdown.go `shutdown`.
  * `mergeB`, `closeWaits`                       — group.go `merge` / `close`.
  * `errorCall`                                  — errGroupBackground.Error.
  * `closeChan`, `doneFire`, `okFire`, `groupCloseOnce`
                                                 — the channel-close guards.
  * `closeTrace`                                 — serialization of the close
    protocol (close requests and finished-signal observations).
-/
import Mathlib

namespace BackgroundPkg

/-! ### Go error values

Go errors relevant to the package: the `ErrTimeout` sentinel
(`errors.New("timeout expired")`, part_000), plain errors created by
`errors.New` / job code, and errors produced by
`fmt.Errorf("%s: %w", label, err)` which carry a formatted message and
an `Unwrap` pointer to the wrapped error. -/

inductive GErr where
  | timeout : GErr
  | mk (msg : String) : GErr
  | wrapf (msg : String) (inner : GErr) : GErr
deriving DecidableEq, Repr

/-- Message of an error, as Go's `err.Error()` returns it. -/
def errString : GErr → String
  | GErr.timeout => "timeout expired"
  | GErr.mk m => m
  | GErr.wrapf m _ => m

/-- Go's `errors.Is(err, target)`: repeatedly compare and unwrap.
Only `fmt.Errorf`-with-`%w` errors unwrap. -/
def errorsIs (e target : GErr) : Bool :=
  if e = target then true
  else
    match e with
    | GErr.wrapf _ inner => errorsIs inner target
    | _ => false

/-- Error produced by `fmt.Errorf("%s: %w", label, err)` as used in
annotate.go: the message is `label ++ ": " ++ err.Error()` and the
wrapped error is `err`. -/
def annotate (label : String) (e : GErr) : GErr :=
  GErr.wrapf (label ++ ": " ++ errString e) e

/-! ### Go keys and values for the Value leaf

Keys are `interface{}` values in Go; the constructors below model the
cases the package distinguishes: the nil interface, comparable values
(ints, strings), and values of non-comparable dynamic type (funcs,
slices), for which `reflect.TypeOf(key).Comparable()` is false. -/

inductive GoKey where
  | kNil : GoKey
  | kInt (n : Int) : GoKey
  | kStr (s : String) : GoKey
  | kFunc (id : Nat) : GoKey
  | kSlice (id : Nat) : GoKey
deriving DecidableEq, Repr

/-- Result of `reflect.TypeOf(key).Comparable()` on a non-nil key. -/
def isComparable : GoKey → Bool
  | GoKey.kFunc _ => false
  | GoKey.kSlice _ => false
  | _ => true

inductive GoVal where
  | vInt (n : Int) : GoVal
  | vStr (s : String) : GoVal
deriving DecidableEq, Repr

/-! ### The Background tree

One constructor per node kind of the package.  Children lists are the
(nil-filtered) backgrounds of the node's merged group.  The shutdown
leaf carries the state of its `done` channel (fired once the job's tail
called `Done()`), which `cause` consults.  `empty` is `emptyBackground`. -/

inductive BG where
  | empty : BG
  /-- `shutdownBackground` (shutdown.go): embedded group of children plus
  the `done` channel state (`done = true` iff the tail's `Done()` fired). -/
  | sdLeaf (done : Bool) (children : List BG) : BG
  /-- `errBackground` (WithError): stored error plus merged children. -/
  | errLeaf (err : Option GErr) (children : List BG) : BG
  /-- `valueBackground` (value.go): stored key/value plus merged children. -/
  | valueLeaf (key : GoKey) (val : Option GoVal) (children : List BG) : BG
  /-- a plain `group` (group.go `Merge`). -/
  | groupN (children : List BG) : BG
  /-- `annotationBackground` (annotate.go): label plus merged children. -/
  | annotN (label : String) (children : List BG) : BG
  /-- `dependBackground` (dependency.go): parent plus merged children group. -/
  | depN (parent : BG) (children : List BG) : BG

/-! ### Err

`group.Err` returns the first non-nil `Err()` of its backgrounds,
scanning left to right.  `errBackground.Err` returns the stored error
only.  `annotationBackground.Err` wraps the first child error with the
label.  `dependBackground.Err` checks the parent first, then the
children left to right.  `shutdownBackground` and `valueBackground` do
not override `Err`, so they use the embedded group's. -/

mutual

def ErrB : BG → Option GErr
  | BG.empty => none
  | BG.sdLeaf _ cs => errList cs
  | BG.errLeaf e _ => e
  | BG.valueLeaf _ _ cs => errList cs
  | BG.groupN cs => errList cs
  | BG.annotN l cs =>
    match errList cs with
    | some e => some (annotate l e)
    | none => none
  | BG.depN p cs =>
    match ErrB p with
    | some e => some e
    | none => errList cs

def errList : List BG → Option GErr
  | [] => none
  | c :: rest =>
    match ErrB c with
    | some e => some e
    | none => errList rest

end

/-! ### Value

`group.Value` returns the first non-nil child value left to right;
`valueBackground.Value` returns its own value when the stored key equals
the queried key (Go `e.key == key`), else defers to the group;
`dependBackground.Value` checks the parent first.  The remaining node
kinds use the embedded group's `Value`. -/

mutual

def ValueB : BG → GoKey → Option GoVal
  | BG.empty, _ => none
  | BG.sdLeaf _ cs, q => valueList cs q
  | BG.errLeaf _ cs, q => valueList cs q
  | BG.valueLeaf k v cs, q => if k = q then v else valueList cs q
  | BG.groupN cs, q => valueList cs q
  | BG.annotN _ cs, q => valueList cs q
  | BG.depN p cs, q =>
    match ValueB p q with
    | some v => some v
    | none => valueList cs q

def valueList : List BG → GoKey → Option GoVal
  | [], _ => none
  | c :: rest, q =>
    match ValueB c q with
    | some v => some v
    | none => valueList rest q

end

/-! ### cause

The diagnostic walk run when a shutdown deadline expires (`closer.cause`).
`group.cause` returns the first non-nil child cause; `shutdownBackground.cause`
checks its children first and then its own `done` channel, producing
`ErrTimeout` when the job has not signalled completion;
`annotationBackground.cause` wraps the group's cause with the label;
`dependBackground.cause` checks children then parent; `emptyBackground.cause`
is nil.  `errBackground` and `valueBackground` use the embedded group's. -/

mutual

def causeB : BG → Option GErr
  | BG.empty => none
  | BG.sdLeaf done cs =>
    match causeList cs with
    | some e => some e
    | none => if done then none else some GErr.timeout
  | BG.errLeaf _ cs => causeList cs
  | BG.valueLeaf _ _ cs => causeList cs
  | BG.groupN cs => causeList cs
  | BG.annotN l cs =>
    match causeList cs with
    | some e => some (annotate l e)
    | none => none
  | BG.depN p cs =>
    match causeList cs with
    | some e => some e
    | none => causeB p

def causeList : List BG → Option GErr
  | [] => none
  | c :: rest =>
    match causeB c with
    | some e => some e
    | none => causeList rest

end

/-! Whether every shutdown leaf in the tree has received its `Done()`
signal, i.e. the tree's close sequence has fully finished. -/

mutual

def allDone : BG → Bool
  | BG.empty => true
  | BG.sdLeaf done cs => done && allDoneList cs
  | BG.errLeaf _ cs => allDoneList cs
  | BG.valueLeaf _ _ cs => allDoneList cs
  | BG.groupN cs => allDoneList cs
  | BG.annotN _ cs => allDoneList cs
  | BG.depN p cs => allDoneList cs && allDone p

def allDoneList : List BG → Bool
  | [] => true
  | c :: rest => allDone c && allDoneList rest

end

/-! ### The shared shutdown protocol

`shutdown(ctx, c)` (shutdown.go) spawns `c.close()` and races `c`'s
finished signal against the deadline.  The race outcome is abstracted to
the boolean `finishedFirst`; the deadline branch evaluates `c.cause()`
on the tree state at walk time. -/

/-- shutdown.go `shutdown`: nil when the finished signal wins the race,
otherwise the result of the cause walk. -/
def shutdownModel (finishedFirst : Bool) (t : BG) : Option GErr :=
  if finishedFirst then none else causeB t

/-- annotate.go `annotationBackground.Shutdown`: runs the embedded group's
`Shutdown` and wraps a non-nil result with the label. -/
def annotShutdown (finishedFirst : Bool) (label : String) (cs : List BG) :
    Option GErr :=
  match shutdownModel finishedFirst (BG.groupN cs) with
  | some e => some (annotate label e)
  | none => none

/-! ### Value-leaf construction

value.go `withValue`: panics (modelled as `Except.error` carrying the
panic message) on a nil key or a key whose type is not comparable,
otherwise stores the pair. -/

def withValue (key : GoKey) (v : Option GoVal) (cs : List BG) :
    Except String BG :=
  if key = GoKey.kNil then Except.error "nil background value key"
  else if isComparable key = false then
    Except.error "background value key is not comparable"
  else Except.ok (BG.valueLeaf key v cs)

/-! ### merge and the close fan-out set

group.go `merge`: iterates the argument slice with its index `i`,
skips nil entries, appends non-nil entries to `ss` (which becomes
`g.backgrounds`), and records `toClose[i] = struct{}{}` — the index in
the ORIGINAL argument slice — for each non-nil entry whose finished
signal has not yet fired.  `group.close` then waits on
`g.backgrounds[i].finishSig()` for each `i` in `toClose`. -/

/-- A child as `merge` observes it: whether its finished signal has
already fired at merge time. -/
structure MChild where
  finished : Bool
deriving DecidableEq, Repr

structure MGroup where
  backgrounds : List MChild
  toClose : List Nat
deriving DecidableEq, Repr

/-- The loop body of group.go `merge`, carrying the running index `i`
into the original argument slice. -/
def mergeAux : Nat → List (Option MChild) → List MChild × List Nat
  | _, [] => ([], [])
  | i, none :: rest => mergeAux (i + 1) rest
  | i, some c :: rest =>
    let (ss, tc) := mergeAux (i + 1) rest
    (c :: ss, if c.finished then tc else i :: tc)

def mergeB (bgs : List (Option MChild)) : MGroup :=
  let (ss, tc) := mergeAux 0 bgs
  { backgrounds := ss, toClose := tc }

/-- The waiting loop of group.go `close`: for each index in `toClose`,
read `g.backgrounds[i]` and wait on its finished signal.  An index past
the end of `backgrounds` is a Go runtime panic (index out of range). -/
def closeWaits (g : MGroup) : Except String (List MChild) :=
  g.toClose.mapM fun i =>
    match g.backgrounds[i]? with
    | some c => Except.ok c
    | none => Except.error "index out of range"

/-! ### ErrorGroup first-write-wins

errGroupBackground.Error (error-group source): assigns `err` under the
lock only when `err` is non-nil and the stored error is still nil. -/

def errorCall (st : Option GErr) (err : Option GErr) : Option GErr :=
  match err with
  | none => st
  | some e =>
    match st with
    | none => some e
    | some _ => st

/-- A sequence of `Error(...)` calls applied in order. -/
def applyCalls (st : Option GErr) (calls : List (Option GErr)) : Option GErr :=
  calls.foldl errorCall st

/-! ### Idempotent one-shot signals

Go's `close(ch)` panics when the channel is already closed; the package
always guards it with a `select` on the channel (under the node's lock).
The state of a one-shot channel is a boolean (fired or not); a step
returns the new state and the number of `close` operations performed,
or an error when an unguarded close would have panicked. -/

/-- Go `close(ch)` on a one-shot channel: fires it, or panics if it has
already fired. -/
def closeChan (fired : Bool) : Except String Bool :=
  if fired then Except.error "close of closed channel" else Except.ok true

/-- shutdown.go `shutdownBackground.Done`: under the lock, select on the
`done` channel — if already closed do nothing, else close it. -/
def doneFire (fired : Bool) : Except String (Bool × Nat) :=
  if fired then Except.ok (fired, 0)
  else
    match closeChan fired with
    | Except.ok f => Except.ok (f, 1)
    | Except.error m => Except.error m

/-- readiness source `readinessBackground.Ok`: same guarded shape on the
`ready` channel. -/
def okFire (fired : Bool) : Except String (Bool × Nat) :=
  if fired then Except.ok (fired, 0)
  else
    match closeChan fired with
    | Except.ok f => Except.ok (f, 1)
    | Except.error m => Except.error m

/-- Calling a guarded one-shot step `n` times, accumulating the number of
channel closes performed. -/
def callN (step : Bool → Except String (Bool × Nat)) :
    Nat → Bool → Except String (Bool × Nat)
  | 0, s => Except.ok (s, 0)
  | n + 1, s =>
    match step s with
    | Except.error m => Except.error m
    | Except.ok (s1, k) =>
      match callN step n s1 with
      | Except.error m => Except.error m
      | Except.ok (s2, k2) => Except.ok (s2, k + k2)

/-- The `done` / `finished` channel pair of a group (group.go). -/
structure GroupCloseState where
  done : Bool
  finished : Bool
deriving DecidableEq, Repr

/-- group.go `close`: under the lock, select on `done` — if already
closed, return; else close `done`, wait for the tracked children (the
waiting loop does not touch these two channels), and close `finished`. -/
def groupCloseOnce (g : GroupCloseState) : Except String GroupCloseState :=
  if g.done then Except.ok g
  else
    match closeChan g.done with
    | Except.error m => Except.error m
    | Except.ok _ =>
      match closeChan g.finished with
      | Except.error m => Except.error m
      | Except.ok _ => Except.ok { done := true, finished := true }

def groupCloseN : Nat → GroupCloseState → Except String GroupCloseState
  | 0, g => Except.ok g
  | n + 1, g =>
    match groupCloseOnce g with
    | Except.error m => Except.error m
    | Except.ok g1 => groupCloseN n g1

/-! ### Serialization of the close protocol

`closeTrace t π` is the sequence of externally meaningful events of
running `t.close()` and waiting for `t`'s finished signal, for the node
rooted at tree position `π` (a path of child indices).  Events:

  * `closeReq p` — the close-request broadcast of the node at `p` fires
    (a group's `done` channel; a shutdown leaf's `end` channel);
  * `fin p`      — the finished signal of the node at `p` fires.

The serialization follows the sequential structure of the Go `close`
methods; the blocking waits on finished signals are assumed to resolve
(every job's tail eventually calls `Done()`).  Children of a node sit at
`π ++ [i]`; for a dependency, the merged children group sits at
`π ++ [0]` (its members at `π ++ [0, i]`) and the parent at `π ++ [1]`.
Children whose finished signal had already fired at merge time are
excluded from the fan-out set by group.go `merge` and contribute no
events; a group merged from an empty list is created already closed
(`closedchan`) and its `close` is a no-op. -/

inductive CEvent where
  | closeReq (path : List Nat) : CEvent
  | fin (path : List Nat) : CEvent
deriving DecidableEq, Repr

def CEvent.path : CEvent → List Nat
  | CEvent.closeReq p => p
  | CEvent.fin p => p

/-- Whether a node's finished signal is already fired at construction
time (before any close): `emptyBackground` and zero-child groups use the
reusable `closedchan`; a shutdown leaf's finished signal is its `done`
channel, fired iff the tail already called `Done()`. -/
def preFin : BG → Bool
  | BG.empty => true
  | BG.sdLeaf done _ => done
  | BG.errLeaf _ cs => cs.isEmpty
  | BG.valueLeaf _ _ cs => cs.isEmpty
  | BG.groupN cs => cs.isEmpty
  | BG.annotN _ cs => cs.isEmpty
  | BG.depN _ _ => false

mutual

def closeTrace : BG → List Nat → List CEvent
  | BG.empty, _ => []
  | BG.sdLeaf done cs, q =>
    childTraces cs q 0 ++
      (CEvent.closeReq q :: if done then [] else [CEvent.fin q])
  | BG.errLeaf _ cs, q =>
    match cs with
    | [] => []
    | _ :: _ => CEvent.closeReq q :: (childTraces cs q 0 ++ [CEvent.fin q])
  | BG.valueLeaf _ _ cs, q =>
    match cs with
    | [] => []
    | _ :: _ => CEvent.closeReq q :: (childTraces cs q 0 ++ [CEvent.fin q])
  | BG.groupN cs, q =>
    match cs with
    | [] => []
    | _ :: _ => CEvent.closeReq q :: (childTraces cs q 0 ++ [CEvent.fin q])
  | BG.annotN _ cs, q =>
    match cs with
    | [] => []
    | _ :: _ => CEvent.closeReq q :: (childTraces cs q 0 ++ [CEvent.fin q])
  | BG.depN p cs, q =>
    (match cs with
     | [] => []
     | _ :: _ =>
       CEvent.closeReq (q ++ [0]) ::
         (childTraces cs (q ++ [0]) 0 ++ [CEvent.fin (q ++ [0])])) ++
      closeTrace p (q ++ [1]) ++ [CEvent.fin q]

def childTraces : List BG → List Nat → Nat → List CEvent
  | [], _, _ => []
  | c :: rest, q, i =>
    (if preFin c then [] else closeTrace c (q ++ [i])) ++
      childTraces rest q (i + 1)

end

/-! ### Helper lemmas -/

theorem errorsIs_self (e : GErr) : errorsIs e e = true := by
  unfold errorsIs
  simp

theorem errorsIs_annotate (l : String) (e t : GErr)
    (h : errorsIs e t = true) : errorsIs (annotate l e) t = true := by
  unfold annotate errorsIs
  split
  · rfl
  · exact h

theorem errList_eq_findSome (cs : List BG) : errList cs = cs.findSome? ErrB := by
  induction cs with
  | nil => rfl
  | cons c rest ih =>
    rw [List.findSome?_cons]
    unfold errList
    cases ErrB c <;> simp [ih]

theorem valueList_eq_findSome (cs : List BG) (q : GoKey) :
    valueList cs q = cs.findSome? fun c => ValueB c q := by
  induction cs with
  | nil => rfl
  | cons c rest ih =>
    rw [List.findSome?_cons]
    unfold valueList
    cases ValueB c q <;> simp [ih]

mutual

theorem causeRooted : ∀ (t : BG) (e : GErr),
    causeB t = some e → errorsIs e GErr.timeout = true
  | BG.empty, e, h => by simp [causeB] at h
  | BG.sdLeaf done cs, e, h => by
    unfold causeB at h
    cases hc : causeList cs with
    | some e1 =>
      rw [hc] at h
      obtain rfl : e1 = e := by injection h
      exact causeListRooted cs e1 hc
    | none =>
      rw [hc] at h
      cases done with
      | true => simp at h
      | false =>
        simp at h
        rw [← h]
        exact errorsIs_self GErr.timeout
  | BG.errLeaf e1 cs, e, h => causeListRooted cs e h
  | BG.valueLeaf k v cs, e, h => causeListRooted cs e h
  | BG.groupN cs, e, h => causeListRooted cs e h
  | BG.annotN l cs, e, h => by
    unfold causeB at h
    cases hc : causeList cs with
    | some e1 =>
      rw [hc] at h
      obtain rfl : annotate l e1 = e := by injection h
      exact errorsIs_annotate l e1 GErr.timeout (causeListRooted cs e1 hc)
    | none => rw [hc] at h; simp at h
  | BG.depN p cs, e, h => by
    unfold causeB at h
    cases hc : causeList cs with
    | some e1 =>
      rw [hc] at h
      obtain rfl : e1 = e := by injection h
      exact causeListRooted cs e1 hc
    | none =>
      rw [hc] at h
      exact causeRooted p e h

theorem causeListRooted : ∀ (l : List BG) (e : GErr),
    causeList l = some e → errorsIs e GErr.timeout = true
  | [], e, h => by simp [causeList] at h
  | c :: rest, e, h => by
    unfold causeList at h
    cases hc : causeB c with
    | some e1 =>
      rw [hc] at h
      obtain rfl : e1 = e := by injection h
      exact causeRooted c e1 hc
    | none =>
      rw [hc] at h
      exact causeListRooted rest e h

end

mutual

theorem causeNone_of_allDone : ∀ t : BG, allDone t = true → causeB t = none
  | BG.empty, _ => rfl
  | BG.sdLeaf done cs, h => by
    unfold allDone at h
    simp only [Bool.and_eq_true] at h
    unfold causeB
    rw [causeListNone_of_allDone cs h.2, h.1]
    simp
  | BG.errLeaf e cs, h => causeListNone_of_allDone cs h
  | BG.valueLeaf k v cs, h => causeListNone_of_allDone cs h
  | BG.groupN cs, h => causeListNone_of_allDone cs h
  | BG.annotN l cs, h => by
    unfold causeB
    rw [causeListNone_of_allDone cs h]
  | BG.depN p cs, h => by
    unfold allDone at h
    simp only [Bool.and_eq_true] at h
    unfold causeB
    rw [causeListNone_of_allDone cs h.1]
    exact causeNone_of_allDone p h.2

theorem causeListNone_of_allDone : ∀ l : List BG,
    allDoneList l = true → causeList l = none
  | [], _ => rfl
  | c :: rest, h => by
    unfold allDoneList at h
    simp only [Bool.and_eq_true] at h
    unfold causeList
    rw [causeNone_of_allDone c h.1]
    exact causeListNone_of_allDone rest h.2

end

theorem errorCall_keeps (e0 : GErr) (e2 : Option GErr) :
    errorCall (some e0) e2 = some e0 := by
  cases e2 <;> rfl

theorem applyCalls_keeps (e0 : GErr) :
    ∀ calls : List (Option GErr), applyCalls (some e0) calls = some e0
  | [] => rfl
  | c :: rest => by
    unfold applyCalls List.foldl
    rw [errorCall_keeps e0 c]
    exact applyCalls_keeps e0 rest

theorem callN_fired (step : Bool → Except String (Bool × Nat))
    (hstep : step true = Except.ok (true, 0)) :
    ∀ n, callN step n true = Except.ok (true, 0)
  | 0 => rfl
  | n + 1 => by
    unfold callN
    rw [hstep]
    simp [callN_fired step hstep n]

theorem groupCloseN_fired : ∀ n,
    groupCloseN n { done := true, finished := true } =
      Except.ok { done := true, finished := true }
  | 0 => rfl
  | n + 1 => by
    unfold groupCloseN
    exact groupCloseN_fired n

/-! ### Theorems for the claims -/

/-- C2: `shutdown` races the node's finished signal against the deadline:
finished-first returns nil; deadline-first returns the result of the
cause walk, which is an `ErrTimeout`-rooted error (every wrap added by an
Annotation along the still-unfinished path preserves `errors.Is` to
`ErrTimeout`), except that the walk returns nil when the whole tree has
already finished by the time it runs. -/
theorem c2_shutdown_deadline_race (t : BG) :
    shutdownModel true t = none ∧
    shutdownModel false t = causeB t ∧
    (∀ e, causeB t = some e → errorsIs e GErr.timeout = true) ∧
    (allDone t = true → causeB t = none) :=
  ⟨rfl, rfl, fun e h => causeRooted t e h, fun h => causeNone_of_allDone t h⟩

theorem c2_witness :
    errorsIs (GErr.wrapf "api: timeout expired" GErr.timeout) GErr.timeout
      = true ∧
    causeB (BG.sdLeaf true []) = none :=
  ⟨(c2_shutdown_deadline_race (BG.annotN "api" [BG.sdLeaf false []])).2.2.1
      (GErr.wrapf "api: timeout expired" GErr.timeout) rfl,
   (c2_shutdown_deadline_race (BG.sdLeaf true [])).2.2.2 rfl⟩

/-- C4: error precedence is deterministic. A group's `Err` is the first
non-nil child error scanning left to right (`List.findSome?`), nil if
none; a dependency's `Err` prefers the parent's error, then the first
non-nil child error left to right. -/
theorem c4_err_precedence (cs : List BG) (p : BG) :
    ErrB (BG.groupN cs) = cs.findSome? ErrB ∧
    ErrB (BG.depN p cs) = (ErrB p).or (cs.findSome? ErrB) := by
  constructor
  · simpa [ErrB] using errList_eq_findSome cs
  · cases h : ErrB p with
    | some e => simp [ErrB, h, Option.or]
    | none => simp [ErrB, h, Option.or, errList_eq_findSome]

/-- C5: a value leaf returns its own value when the queried key equals
its stored key and otherwise defers to the wrapped group, whose lookup
is the leftmost non-nil child result; in particular the topmost of two
same-keyed leaves wins. -/
theorem c5_value_precedence (k q : GoKey) (v : Option GoVal) (cs : List BG)
    (v1 v2 : GoVal) :
    ValueB (BG.valueLeaf k v cs) q = (if k = q then v else valueList cs q) ∧
    valueList cs q = (cs.findSome? fun c => ValueB c q) ∧
    ValueB (BG.valueLeaf k (some v2) [BG.valueLeaf k (some v1) []]) k
      = some v2 := by
  refine ⟨rfl, valueList_eq_findSome cs q, ?_⟩
  simp [ValueB]

/-- C6: an Annotation node with label `X` wraps every non-nil error the
wrapped group reports through `Err`, `cause` or `Shutdown` into an error
whose message is `"X: "` followed by the original message and which
still satisfies `errors.Is` against the original; a nil result stays
nil. -/
theorem c6_annotation_wrapping (l : String) (cs : List BG) (e : GErr) :
    (errList cs = some e → ErrB (BG.annotN l cs) = some (annotate l e)) ∧
    (causeList cs = some e → causeB (BG.annotN l cs) = some (annotate l e)) ∧
    (shutdownModel false (BG.groupN cs) = some e →
      annotShutdown false l cs = some (annotate l e)) ∧
    errString (annotate l e) = l ++ ": " ++ errString e ∧
    errorsIs (annotate l e) e = true ∧
    (errList cs = none → ErrB (BG.annotN l cs) = none) ∧
    (causeList cs = none → causeB (BG.annotN l cs) = none) ∧
    (∀ b, shutdownModel b (BG.groupN cs) = none →
      annotShutdown b l cs = none) := by
  refine ⟨fun h => ?_, fun h => ?_, fun h => ?_, rfl,
    errorsIs_annotate l e e (errorsIs_self e), fun h => ?_, fun h => ?_,
    fun b h => ?_⟩
  · unfold ErrB; rw [h]
  · unfold causeB; rw [h]
  · unfold annotShutdown; rw [h]
  · unfold ErrB; rw [h]
  · unfold causeB; rw [h]
  · unfold annotShutdown; rw [h]

theorem c6_witness :
    ErrB (BG.annotN "X" [BG.errLeaf (some (GErr.mk "boom")) []])
      = some (annotate "X" (GErr.mk "boom")) ∧
    causeB (BG.annotN "X" [BG.sdLeaf false []])
      = some (annotate "X" GErr.timeout) ∧
    annotShutdown false "X" [BG.sdLeaf false []]
      = some (annotate "X" GErr.timeout) ∧
    annotShutdown true "X" [BG.sdLeaf false []] = none :=
  ⟨(c6_annotation_wrapping "X" [BG.errLeaf (some (GErr.mk "boom")) []]
      (GErr.mk "boom")).1 rfl,
   (c6_annotation_wrapping "X" [BG.sdLeaf false []] GErr.timeout).2.1 rfl,
   (c6_annotation_wrapping "X" [BG.sdLeaf false []] GErr.timeout).2.2.1 rfl,
   (c6_annotation_wrapping "X" [BG.sdLeaf false []] GErr.timeout).2.2.2.2.2.2.2
      true rfl⟩

/-- C7: `Error(err)` assigns only when the stored error is nil and `err`
is non-nil; once set, every later call is ignored, so the stored error
never changes again and `Err()` keeps returning the same error. -/
theorem c7_error_first_write_wins (st e2 : Option GErr) (err : GErr)
    (calls : List (Option GErr)) :
    errorCall none (some err) = some err ∧
    errorCall (some err) e2 = some err ∧
    errorCall st none = st ∧
    (st = some err → applyCalls st calls = some err) := by
  refine ⟨rfl, errorCall_keeps err e2, rfl, fun h => ?_⟩
  rw [h]
  exact applyCalls_keeps err calls

theorem c7_witness :
    applyCalls (some (GErr.mk "first"))
      [some (GErr.mk "second"), none, some GErr.timeout]
      = some (GErr.mk "first") :=
  (c7_error_first_write_wins (some (GErr.mk "first")) none (GErr.mk "first")
    [some (GErr.mk "second"), none, some GErr.timeout]).2.2.2 rfl

/-- C8: the idempotent one-shot transitions never fault and never
re-fire: calling a shutdown tail's `Done()` n times (n at least one)
performs exactly one channel close and no panic, likewise a readiness
tail's `Ok()`, and repeated `close()` calls on a group fire its `done`
and `finished` channels exactly once with no panic. -/
theorem c8_idempotent_transitions (n : Nat) (h : 1 ≤ n) :
    callN doneFire n false = Except.ok (true, 1) ∧
    callN okFire n false = Except.ok (true, 1) ∧
    groupCloseN n { done := false, finished := false } =
      Except.ok { done := true, finished := true } := by
  obtain ⟨m, rfl⟩ : ∃ m, n = m + 1 := ⟨n - 1, by omega⟩
  refine ⟨?_, ?_, ?_⟩
  · unfold callN
    rw [show doneFire false = Except.ok (true, 1) from rfl]
    simp [callN_fired doneFire rfl m]
  · unfold callN
    rw [show okFire false = Except.ok (true, 1) from rfl]
    simp [callN_fired okFire rfl m]
  · unfold groupCloseN
    rw [show groupCloseOnce { done := false, finished := false } =
      Except.ok { done := true, finished := true } from rfl]
    exact groupCloseN_fired m

theorem c8_witness :
    callN doneFire 3 false = Except.ok (true, 1) ∧
    callN okFire 3 false = Except.ok (true, 1) ∧
    groupCloseN 3 { done := false, finished := false } =
      Except.ok { done := true, finished := true } :=
  c8_idempotent_transitions 3 (by decide)

/-- C9: constructing a value leaf with the nil key or a non-comparable
key aborts with the corresponding panic; any other key is stored
together with the value exactly as given. -/
theorem c9_withValue_key_validation (k : GoKey) (v : Option GoVal)
    (cs : List BG) :
    withValue GoKey.kNil v cs = Except.error "nil background value key" ∧
    (k ≠ GoKey.kNil → isComparable k = false →
      withValue k v cs =
        Except.error "background value key is not comparable") ∧
    (k ≠ GoKey.kNil → isComparable k = true →
      withValue k v cs = Except.ok (BG.valueLeaf k v cs)) := by
  refine ⟨rfl, fun h1 h2 => ?_, fun h1 h2 => ?_⟩ <;>
    simp [withValue, h1, h2]

theorem c9_witness :
    withValue (GoKey.kFunc 0) none []
      = Except.error "background value key is not comparable" ∧
    withValue (GoKey.kInt 1) (some (GoVal.vInt 2)) []
      = Except.ok (BG.valueLeaf (GoKey.kInt 1) (some (GoVal.vInt 2)) []) :=
  ⟨(c9_withValue_key_validation (GoKey.kFunc 0) none []).2.1
      (by decide) rfl,
   (c9_withValue_key_validation (GoKey.kInt 1) (some (GoVal.vInt 2)) []).2.2
      (by decide) rfl⟩

/-- C10: an error leaf's `Err` is exactly its stored error and never
consults the merged children; a leaf built with a nil error reports nil
even when some child's `Err` is non-nil. -/
theorem c10_error_leaf_ignores_children (e : Option GErr) (cs : List BG)
    (c : BG) (err : GErr) :
    ErrB (BG.errLeaf e cs) = e ∧
    (c ∈ cs → ErrB c = some err → ErrB (BG.errLeaf none cs) = none) :=
  ⟨rfl, fun _ _ => rfl⟩

theorem c10_witness :
    ErrB (BG.errLeaf none [BG.errLeaf (some (GErr.mk "boom")) []])
      = none :=
  (c10_error_leaf_ignores_children none
      [BG.errLeaf (some (GErr.mk "boom")) []]
      (BG.errLeaf (some (GErr.mk "boom")) []) (GErr.mk "boom")).2
    (List.mem_singleton.mpr rfl) rfl

/-- C3 (divergence witness): `merge` keys the close fan-out set by the
position in the ORIGINAL argument list while `backgrounds` is the
nil-filtered list, so merging a nil entry followed by a not-yet-finished
child yields the fan-out index 1 against a retained list of length 1,
and the waiting loop of `close` faults (Go index-out-of-range panic). -/
theorem c3_merge_index_fault :
    (mergeB [none, some { finished := false }]).backgrounds.length = 1 ∧
    (mergeB [none, some { finished := false }]).toClose = [1] ∧
    closeWaits (mergeB [none, some { finished := false }]) =
      Except.error "index out of range" :=
  ⟨rfl, rfl, rfl⟩

/-! ### Position lemmas for the close-protocol serialization -/

@[simp] theorem CEvent.path_closeReq (p : List Nat) :
    (CEvent.closeReq p).path = p := rfl

@[simp] theorem CEvent.path_fin (p : List Nat) :
    (CEvent.fin p).path = p := rfl

mutual

theorem closeTrace_prefix : ∀ (t : BG) (q : List Nat) (e : CEvent),
    e ∈ closeTrace t q → q <+: e.path
  | BG.empty, q, e, h => by simp [closeTrace] at h
  | BG.sdLeaf done cs, q, e, h => by
    unfold closeTrace at h
    rcases List.mem_append.mp h with h | h
    · obtain ⟨j, hj⟩ := childTraces_prefix cs q 0 e h
      exact (List.prefix_append q [j]).trans hj
    · rcases List.mem_cons.mp h with rfl | h
      · exact List.prefix_refl q
      · cases done with
        | true => simp at h
        | false =>
          rw [List.mem_singleton.mp h]
          exact List.prefix_refl q
  | BG.errLeaf e1 cs, q, e, h => by
    unfold closeTrace at h
    cases cs with
    | nil => simp at h
    | cons c rest =>
      rcases List.mem_cons.mp h with rfl | h
      · exact List.prefix_refl q
      · rcases List.mem_append.mp h with h | h
        · obtain ⟨j, hj⟩ := childTraces_prefix (c :: rest) q 0 e h
          exact (List.prefix_append q [j]).trans hj
        · rw [List.mem_singleton.mp h]
          exact List.prefix_refl q
  | BG.valueLeaf k v cs, q, e, h => by
    unfold closeTrace at h
    cases cs with
    | nil => simp at h
    | cons c rest =>
      rcases List.mem_cons.mp h with rfl | h
      · exact List.prefix_refl q
      · rcases List.mem_append.mp h with h | h
        · obtain ⟨j, hj⟩ := childTraces_prefix (c :: rest) q 0 e h
          exact (List.prefix_append q [j]).trans hj
        · rw [List.mem_singleton.mp h]
          exact List.prefix_refl q
  | BG.groupN cs, q, e, h => by
    unfold closeTrace at h
    cases cs with
    | nil => simp at h
    | cons c rest =>
      rcases List.mem_cons.mp h with rfl | h
      · exact List.prefix_refl q
      · rcases List.mem_append.mp h with h | h
        · obtain ⟨j, hj⟩ := childTraces_prefix (c :: rest) q 0 e h
          exact (List.prefix_append q [j]).trans hj
        · rw [List.mem_singleton.mp h]
          exact List.prefix_refl q
  | BG.annotN l cs, q, e, h => by
    unfold closeTrace at h
    cases cs with
    | nil => simp at h
    | cons c rest =>
      rcases List.mem_cons.mp h with rfl | h
      · exact List.prefix_refl q
      · rcases List.mem_append.mp h with h | h
        · obtain ⟨j, hj⟩ := childTraces_prefix (c :: rest) q 0 e h
          exact (List.prefix_append q [j]).trans hj
        · rw [List.mem_singleton.mp h]
          exact List.prefix_refl q
  | BG.depN p cs, q, e, h => by
    unfold closeTrace at h
    rcases List.mem_append.mp h with h | h
    · rcases List.mem_append.mp h with h | h
      · cases cs with
        | nil => simp at h
        | cons c rest =>
          rcases List.mem_cons.mp h with rfl | h
          · exact List.prefix_append q [0]
          · rcases List.mem_append.mp h with h | h
            · obtain ⟨j, hj⟩ := childTraces_prefix (c :: rest) (q ++ [0]) 0 e h
              exact ((List.prefix_append q [0]).trans
                (List.prefix_append (q ++ [0]) [j])).trans hj
            · rw [List.mem_singleton.mp h]
              exact List.prefix_append q [0]
      · have hp := closeTrace_prefix p (q ++ [1]) e h
        exact (List.prefix_append q [1]).trans hp
    · rw [List.mem_singleton.mp h]
      exact List.prefix_refl q

theorem childTraces_prefix : ∀ (cs : List BG) (q : List Nat) (i : Nat)
    (e : CEvent),
    e ∈ childTraces cs q i → ∃ j, (q ++ [j]) <+: e.path
  | [], q, i, e, h => by simp [childTraces] at h
  | c :: rest, q, i, e, h => by
    unfold childTraces at h
    rcases List.mem_append.mp h with h | h
    · cases hp : preFin c with
      | true => rw [hp] at h; simp at h
      | false =>
        rw [hp] at h
        simp only [Bool.false_eq_true, if_false] at h
        exact ⟨i, closeTrace_prefix c (q ++ [i]) e h⟩
    · exact childTraces_prefix rest q (i + 1) e h

end

theorem closeReq_parent_not_in_groupShape (π : List Nat) (cs : List BG) :
    CEvent.closeReq (π ++ [1]) ∉
      CEvent.closeReq (π ++ [0]) ::
        (childTraces cs (π ++ [0]) 0 ++ [CEvent.fin (π ++ [0])]) := by
  intro h
  rcases List.mem_cons.mp h with h | h
  · have h1 : (π ++ [1] : List Nat) = π ++ [0] := by injection h
    have h2 := List.append_cancel_left h1
    simp at h2
  · rcases List.mem_append.mp h with h | h
    · obtain ⟨j, hj⟩ := childTraces_prefix cs (π ++ [0]) 0 _ h
      have hl := hj.length_le
      simp at hl
    · simp at h

theorem fin_root_not_in_groupShape (π : List Nat) (cs : List BG) :
    CEvent.fin π ∉
      CEvent.closeReq (π ++ [0]) ::
        (childTraces cs (π ++ [0]) 0 ++ [CEvent.fin (π ++ [0])]) := by
  intro h
  rcases List.mem_cons.mp h with h | h
  · simp at h
  · rcases List.mem_append.mp h with h | h
    · obtain ⟨j, hj⟩ := childTraces_prefix cs (π ++ [0]) 0 _ h
      have hl := hj.length_le
      simp at hl
    · simp at h

theorem fin_root_not_in_parentTrace (p : BG) (π : List Nat)
    (h : CEvent.fin π ∈ closeTrace p (π ++ [1])) : False := by
  have hp := closeTrace_prefix p (π ++ [1]) _ h
  have hl := hp.length_le
  simp at hl

/-- C1: a dependency's close first requests close on the children group,
lets it run to its finished signal, only then requests close anywhere in
the parent, and fires its own finished signal as the very last event:
in the serialization, the first event is the children group's close
request, every occurrence of the parent's close request is preceded by
the children group's finished signal, and the dependency's finished
signal is exactly the last event. -/
theorem c1_dependency_close_order (p : BG) (cs : List BG) (π : List Nat)
    (hcs : cs ≠ []) :
    (closeTrace (BG.depN p cs) π).head?
      = some (CEvent.closeReq (π ++ [0])) ∧
    (∀ n : Nat, (closeTrace (BG.depN p cs) π)[n]?
        = some (CEvent.closeReq (π ++ [1])) →
      ∃ m : Nat, m < n ∧ (closeTrace (BG.depN p cs) π)[m]?
        = some (CEvent.fin (π ++ [0]))) ∧
    (closeTrace (BG.depN p cs) π).getLast? = some (CEvent.fin π) ∧
    (∀ m : Nat, (closeTrace (BG.depN p cs) π)[m]? = some (CEvent.fin π) →
      m = (closeTrace (BG.depN p cs) π).length - 1) := by
  obtain ⟨c, cs', rfl⟩ : ∃ c cs', cs = c :: cs' := by
    cases cs with
    | nil => exact absurd rfl hcs
    | cons c cs' => exact ⟨c, cs', rfl⟩
  have hT : closeTrace (BG.depN p (c :: cs')) π =
      (CEvent.closeReq (π ++ [0]) ::
        (childTraces (c :: cs') (π ++ [0]) 0 ++ [CEvent.fin (π ++ [0])])) ++
        closeTrace p (π ++ [1]) ++ [CEvent.fin π] := by
    simp only [closeTrace]
  set G : List CEvent := CEvent.closeReq (π ++ [0]) ::
    (childTraces (c :: cs') (π ++ [0]) 0 ++ [CEvent.fin (π ++ [0])]) with hGdef
  set P : List CEvent := closeTrace p (π ++ [1]) with hPdef
  rw [hT]
  refine ⟨?_, ?_, ?_, ?_⟩
  · simp [hGdef, List.cons_append]
  · intro n hn
    have hnotG : CEvent.closeReq (π ++ [1]) ∉ G :=
      closeReq_parent_not_in_groupShape π (c :: cs')
    have hge : G.length ≤ n := by
      by_contra hlt
      push_neg at hlt
      rw [List.getElem?_append, if_pos (by
        rw [List.length_append]; omega)] at hn
      rw [List.getElem?_append, if_pos hlt] at hn
      exact hnotG (List.getElem?_mem hn)
    refine ⟨G.length - 1, by
      have : 0 < G.length := by simp [hGdef]
      omega, ?_⟩
    have hGlast : G[G.length - 1]? = some (CEvent.fin (π ++ [0])) := by
      rw [hGdef]
      rw [show CEvent.closeReq (π ++ [0]) ::
          (childTraces (c :: cs') (π ++ [0]) 0 ++ [CEvent.fin (π ++ [0])]) =
        (CEvent.closeReq (π ++ [0]) :: childTraces (c :: cs') (π ++ [0]) 0) ++
          [CEvent.fin (π ++ [0])] from by simp]
      rw [show ((CEvent.closeReq (π ++ [0]) ::
          childTraces (c :: cs') (π ++ [0]) 0) ++
          [CEvent.fin (π ++ [0])]).length - 1 =
        (CEvent.closeReq (π ++ [0]) ::
          childTraces (c :: cs') (π ++ [0]) 0).length from by
        simp]
      exact List.getElem?_concat_length _ _
    rw [List.getElem?_append, if_pos (by
      rw [List.length_append]
      have : 0 < G.length := by simp [hGdef]
      omega)]
    rw [List.getElem?_append, if_pos (by
      have : 0 < G.length := by simp [hGdef]
      omega)]
    exact hGlast
  · exact List.getLast?_concat _
  · intro m hm
    have hnot : CEvent.fin π ∉ G ++ P := by
      intro hmem
      rcases List.mem_append.mp hmem with hmem | hmem
      · exact fin_root_not_in_groupShape π (c :: cs') hmem
      · exact fin_root_not_in_parentTrace p π hmem
    have hge : (G ++ P).length ≤ m := by
      by_contra hlt
      push_neg at hlt
      rw [List.getElem?_append, if_pos hlt] at hm
      exact hnot (List.getElem?_mem hm)
    rw [List.getElem?_append, if_neg (by omega)] at hm
    have hlt1 : m - (G ++ P).length < 1 := by
      by_contra hge1
      push_neg at hge1
      rw [List.getElem?_eq_none (by simpa using hge1)] at hm
      exact Option.noConfusion hm
    simp only [List.length_append, List.length_cons, List.length_nil]
    rw [List.length_append] at hge hlt1
    omega

theorem c1_witness :
    (closeTrace (BG.depN (BG.sdLeaf false []) [BG.sdLeaf false []]) []).head?
      = some (CEvent.closeReq [0]) ∧
    (closeTrace
        (BG.depN (BG.sdLeaf false []) [BG.sdLeaf false []]) []).getLast?
      = some (CEvent.fin []) :=
  ⟨(c1_dependency_close_order (BG.sdLeaf false []) [BG.sdLeaf false []] []
      (by simp)).1,
   (c1_dependency_close_order (BG.sdLeaf false []) [BG.sdLeaf false []] []
      (by simp)).2.2.1⟩

end BackgroundPkg
